import Mathlib

/-!
Verification of the clip-ranker HTTP service (src/clip-ranker/app.py).

The service is embedded shallowly. The external collaborators of the
handler (the HTTP client used by the downloader, the PIL image decoder,
the CLIP tokenizer with text encoder, the preprocessing pipeline with the
image encoder, and the cosine-similarity kernel of the model) are modelled
as an oracle structure `World`; the request handler `rank`, the downloader
`safe_download` and the per-candidate loop body `processItem` are
translated from the source. Exceptions are modelled with `Except`:
a raised exception inside the loop body that the inner try/except does not
catch propagates as `Except.error` to the top-level handler, which turns it
into a 400 response.
-/

namespace ClipRanker

/-- Abstract handle standing for a decoded PIL image object. -/
abbrev Img := Nat

/-- Abstract handle standing for an embedding feature tensor. -/
abbrev Feat := Nat

/-- Oracle for everything the handler delegates to external libraries.
`http url` is the outcome of `requests.get` with `raise_for_status`:
`none` models any raised network, timeout or HTTP-status error, and
`some bs` is the raw payload byte stream. `decode` models
`Image.open(BytesIO(..)).convert("RGB")`, `none` being a decode error.
`encodeText` models `tokenizer([scene])` followed by `model.encode_text`,
`none` being a raised tokenizer or model error. `procEmbed` models
`preprocess(img).unsqueeze(0)` followed by `model.encode_image`, `none`
being a raised preprocessing or model error. `cosSim` models
`torch.cosine_similarity(..).item()` on the two feature tensors. -/
structure World where
  http : String → Option (List Nat)
  decode : List Nat → Option Img
  encodeText : String → Option Feat
  procEmbed : Img → Option Feat
  cosSim : Feat → Feat → ℚ

/-- Computable floor of a rational, matching the mathematical floor
(see `ratFloor_eq`). -/
def ratFloor (x : ℚ) : ℤ := x.num / (x.den : ℤ)

/-- Round a rational to the nearest integer, ties to the even integer:
the rounding mode of the Python builtin `round`. -/
def rndHalfEven (x : ℚ) : ℤ :=
  if x - ratFloor x < 1/2 then ratFloor x
  else if 1/2 < x - ratFloor x then ratFloor x + 1
  else if ratFloor x % 2 = 0 then ratFloor x else ratFloor x + 1

/-- Model of `round(score, 4)`: round to 4 decimal digits. -/
def round4 (q : ℚ) : ℚ := (rndHalfEven (q * 10000) : ℚ) / 10000

/-- Model of `safe_download` from app.py: perform the HTTP request
(any raised error gives `None`), read at most 1,000,000 bytes of the
payload, and attempt to decode them as an image (any raised error gives
`None`). -/
def safe_download (w : World) (url : String) : Option Img :=
  match w.http url with
  | none => none
  | some content => w.decode (content.take 1000000)

/-- One element of the JSON `images` array of a request. `obj url thumb`
is a JSON object whose `url` and `thumb` keys are present iff the
corresponding field is `some`; `nonObj` is any non-object JSON value, on
which key access raises a TypeError. -/
inductive Item
  | obj (url thumb : Option String)
  | nonObj
deriving DecidableEq

/-- The request body as seen by `request.get_json(force=True)`:
`malformed` raises while parsing; otherwise the `scene` and `images`
fields are each present iff `some`. -/
inductive Body
  | malformed
  | json (scene : Option String) (images : Option (List Item))
deriving DecidableEq

/-- One entry of a successful response: the display url and the rounded
cosine-similarity score. -/
structure ScoredImage where
  url : String
  score : ℚ
deriving DecidableEq

/-- Body of an HTTP response: either the JSON array of scored images or a
JSON object with an error message. -/
inductive RBody
  | results (rs : List ScoredImage)
  | err (msg : String)
deriving DecidableEq

/-- An HTTP response: status code and body. -/
structure Response where
  status : Nat
  body : RBody
deriving DecidableEq

/-- The body of the `for item in images` loop in `rank`, given the text
features `tf`. `Except.error` models an exception that escapes the loop
body (key access on the item outside the inner try), `.ok none` a
candidate that is skipped, `.ok (some e)` a recorded result.
Note `item["thumb"]` is evaluated outside the inner try/except, so a
missing `thumb` key or a non-object item raises to the top level, while
`item["url"]` is evaluated inside it, so a missing `url` key only skips
the candidate. -/
def processItem (w : World) (tf : Feat) : Item → Except String (Option ScoredImage)
  | .nonObj => .error "TypeError: candidate is not a JSON object"
  | .obj url thumb =>
    match thumb with
    | none => .error "KeyError: thumb"
    | some t =>
      match safe_download w t with
      | none => .ok none
      | some img =>
        match w.procEmbed img with
        | none => .ok none
        | some imf =>
          match url with
          | none => .ok none
          | some u => .ok (some ⟨u, round4 (w.cosSim imf tf)⟩)

/-- The whole loop: process candidates in input order, appending recorded
results; an escaping exception aborts the loop and discards the list. -/
def processImages (w : World) (tf : Feat) : List Item → Except String (List ScoredImage)
  | [] => .ok []
  | it :: rest =>
    match processItem w tf it with
    | .error e => .error e
    | .ok none => processImages w tf rest
    | .ok (some s) =>
      match processImages w tf rest with
      | .error e => .error e
      | .ok l => .ok (s :: l)

/-- The per-candidate outcome, forgetting the exception message. -/
def itemEntry (w : World) (tf : Feat) (it : Item) : Option ScoredImage :=
  match processItem w tf it with
  | .ok r => r
  | .error _ => none

/-- Comparison used by `results.sort(key=lambda x: x["score"], reverse=True)`:
`a` may stay before `b` iff the score of `b` is at most the score of `a`. -/
def scoreLE (a b : ScoredImage) : Bool := decide (b.score ≤ a.score)

/-- Model of the stable descending sort performed by `list.sort` with
`reverse=True`. -/
def sortScores (l : List ScoredImage) : List ScoredImage := l.mergeSort scoreLE

/-- Model of the `rank` handler: parse the body, read the `scene` and
`images` fields (a missing field raises a KeyError caught at top level),
encode the scene text, run the candidate loop, sort the recorded results
by score descending (stable) and return the first 3. Any exception
reaching the top-level try/except becomes a 400 response whose JSON body
carries the message. -/
def rank (w : World) (b : Body) : Response :=
  match b with
  | .malformed => ⟨400, .err "BadRequest: failed to decode JSON object"⟩
  | .json scene images =>
    match scene with
    | none => ⟨400, .err "KeyError: scene"⟩
    | some sc =>
      match images with
      | none => ⟨400, .err "KeyError: images"⟩
      | some imgs =>
        match w.encodeText sc with
        | none => ⟨400, .err "RuntimeError: text encoding failed"⟩
        | some tf =>
          match processImages w tf imgs with
          | .error e => ⟨400, .err e⟩
          | .ok results => ⟨200, .results ((sortScores results).take 3)⟩

/-! ## Basic facts about the rounding function -/

theorem ratFloor_eq (x : ℚ) : ratFloor x = ⌊x⌋ := (Rat.floor_def).symm

theorem rndHalfEven_sub_abs_le (x : ℚ) : |(rndHalfEven x : ℚ) - x| ≤ 1/2 := by
  have h1 : (⌊x⌋ : ℚ) ≤ x := Int.floor_le x
  have h2 : x < ⌊x⌋ + 1 := Int.lt_floor_add_one x
  unfold rndHalfEven
  rw [ratFloor_eq]
  split_ifs with ha hb hc
  · rw [abs_le]; constructor <;> linarith
  · rw [abs_le]; push_cast; constructor <;> linarith
  · rw [abs_le]; constructor <;> linarith
  · rw [abs_le]; push_cast; constructor <;> linarith

theorem abs_round4_le_one {q : ℚ} (h : |q| ≤ 1) : |round4 q| ≤ 1 := by
  have hx : |q * 10000| ≤ 10000 := by
    rw [abs_mul, show |(10000 : ℚ)| = 10000 from by norm_num]
    nlinarith [abs_nonneg q]
  have h1 : |(rndHalfEven (q * 10000) : ℚ) - q * 10000| ≤ 1/2 :=
    rndHalfEven_sub_abs_le (q * 10000)
  have h2 : |(rndHalfEven (q * 10000) : ℚ)| ≤ 10000 + 1/2 := by
    have h3 := abs_add ((rndHalfEven (q * 10000) : ℚ) - q * 10000) (q * 10000)
    rw [sub_add_cancel] at h3
    linarith [abs_sub_abs_le_abs_sub ((rndHalfEven (q * 10000) : ℚ)) (q * 10000)]
  have h3 : |rndHalfEven (q * 10000)| ≤ 10000 := by
    have hlt : ((|rndHalfEven (q * 10000)| : ℤ) : ℚ) < 10001 := by
      rw [Int.cast_abs]; linarith
    have hlt2 : |rndHalfEven (q * 10000)| < 10001 := by exact_mod_cast hlt
    omega
  have h4 : |(rndHalfEven (q * 10000) : ℚ)| ≤ 10000 := by
    rw [← Int.cast_abs]; exact_mod_cast h3
  unfold round4
  rw [abs_div, show |(10000 : ℚ)| = 10000 from by norm_num,
    div_le_one (by norm_num)]
  exact h4

/-! ## Facts about the per-candidate loop -/

theorem processItem_error_ne {w : World} {tf : Feat} {it : Item} {e : String}
    (h : processItem w tf it = .error e) : e ≠ "" := by
  cases it with
  | nonObj =>
    simp only [processItem, Except.error.injEq] at h
    subst h; decide
  | obj url thumb =>
    cases thumb with
    | none =>
      simp only [processItem, Except.error.injEq] at h
      subst h; decide
    | some t =>
      simp only [processItem] at h
      cases hdl : safe_download w t with
      | none => simp only [hdl] at h; exact absurd h (by simp)
      | some img =>
        simp only [hdl] at h
        cases hpe : w.procEmbed img with
        | none => simp only [hpe] at h; exact absurd h (by simp)
        | some imf =>
          simp only [hpe] at h
          cases url <;> simp at h

theorem processItem_ok_some {w : World} {tf : Feat} {it : Item} {e : ScoredImage}
    (h : processItem w tf it = .ok (some e)) :
    ∃ u t img f, it = .obj (some u) (some t) ∧ safe_download w t = some img ∧
      w.procEmbed img = some f ∧ e = ⟨u, round4 (w.cosSim f tf)⟩ := by
  cases it with
  | nonObj => exact absurd h (by simp [processItem])
  | obj url thumb =>
    cases thumb with
    | none => exact absurd h (by simp [processItem])
    | some t =>
      simp only [processItem] at h
      cases hdl : safe_download w t with
      | none => simp only [hdl] at h; exact absurd h (by simp)
      | some img =>
        simp only [hdl] at h
        cases hpe : w.procEmbed img with
        | none => simp only [hpe] at h; exact absurd h (by simp)
        | some imf =>
          simp only [hpe] at h
          cases url with
          | none => exact absurd h (by simp)
          | some u =>
            simp only [Except.ok.injEq, Option.some.injEq] at h
            exact ⟨u, t, img, imf, rfl, hdl, hpe, h.symm⟩

theorem processImages_skip {w : World} {tf : Feat} {bad : Item}
    (hbad : processItem w tf bad = .ok none) :
    ∀ (l1 l2 : List Item),
      processImages w tf (l1 ++ bad :: l2) = processImages w tf (l1 ++ l2)
  | [], l2 => by simp [processImages, hbad]
  | it :: l1, l2 => by
    have ih := processImages_skip hbad l1 l2
    cases hit : processItem w tf it with
    | error e => simp [processImages, hit]
    | ok r =>
      cases r with
      | none => simp [processImages, hit, ih]
      | some s => simp [processImages, hit, ih]

theorem processImages_all_none {w : World} {tf : Feat} :
    ∀ {l : List Item}, (∀ it ∈ l, processItem w tf it = .ok none) →
      processImages w tf l = .ok []
  | [], _ => rfl
  | it :: rest, h => by
    have h1 := h it (List.mem_cons_self it rest)
    simp only [processImages, h1]
    exact processImages_all_none fun x hx => h x (List.mem_cons_of_mem _ hx)

theorem processImages_ok_eq {w : World} {tf : Feat} :
    ∀ {l : List Item} {res : List ScoredImage},
      processImages w tf l = .ok res → res = l.filterMap (itemEntry w tf)
  | [], res, h => by
    simp only [processImages, Except.ok.injEq] at h
    simp [← h]
  | it :: rest, res, h => by
    simp only [processImages] at h
    cases hit : processItem w tf it with
    | error e => simp only [hit] at h; exact absurd h (by simp)
    | ok r =>
      simp only [hit] at h
      cases r with
      | none =>
        have hrec := processImages_ok_eq h
        simp [List.filterMap_cons, itemEntry, hit, hrec]
      | some s =>
        cases hrest : processImages w tf rest with
        | error e => simp only [hrest] at h; exact absurd h (by simp)
        | ok l2 =>
          simp only [hrest] at h
          simp only [Except.ok.injEq] at h
          have hrec := processImages_ok_eq hrest
          simp [List.filterMap_cons, itemEntry, hit, ← h, hrec]

theorem processImages_abort {w : World} {tf : Feat} {bad : Item} {e : String}
    (hbad : processItem w tf bad = .error e) :
    ∀ (l1 l2 : List Item), ∃ m, processImages w tf (l1 ++ bad :: l2) = .error m
  | [], l2 => ⟨e, by simp [processImages, hbad]⟩
  | it :: l1, l2 => by
    obtain ⟨m, hm⟩ := processImages_abort hbad l1 l2
    cases hit : processItem w tf it with
    | error e2 => exact ⟨e2, by simp [processImages, hit]⟩
    | ok r =>
      cases r with
      | none => exact ⟨m, by simp [processImages, hit, hm]⟩
      | some s => exact ⟨m, by simp [processImages, hit, hm]⟩

theorem processImages_error_ne {w : World} {tf : Feat} :
    ∀ {l : List Item} {e : String}, processImages w tf l = .error e → e ≠ ""
  | [], e, h => by simp [processImages] at h
  | it :: rest, e, h => by
    simp only [processImages] at h
    cases hit : processItem w tf it with
    | error e2 =>
      simp only [hit] at h
      simp only [Except.error.injEq] at h
      exact h ▸ processItem_error_ne hit
    | ok r =>
      simp only [hit] at h
      cases r with
      | none => exact processImages_error_ne h
      | some s =>
        cases hrest : processImages w tf rest with
        | error e2 =>
          simp only [hrest] at h
          simp only [Except.error.injEq] at h
          exact h ▸ processImages_error_ne hrest
        | ok l2 => simp only [hrest] at h; exact absurd h (by simp)

theorem mem_ok_results {w : World} {tf : Feat} {l : List Item}
    {res : List ScoredImage} (h : processImages w tf l = .ok res)
    {e : ScoredImage} (he : e ∈ res) :
    ∃ it, it ∈ l ∧ itemEntry w tf it = some e := by
  rw [processImages_ok_eq h] at he
  exact List.mem_filterMap.mp he

theorem itemEntry_some_shape {w : World} {tf : Feat} {it : Item}
    {e : ScoredImage} (h : itemEntry w tf it = some e) :
    ∃ u t img f, it = .obj (some u) (some t) ∧ safe_download w t = some img ∧
      w.procEmbed img = some f ∧ e = ⟨u, round4 (w.cosSim f tf)⟩ := by
  unfold itemEntry at h
  cases hit : processItem w tf it with
  | error e2 => simp only [hit] at h; exact absurd h (by simp)
  | ok r =>
    simp only [hit] at h
    cases r with
    | none => exact absurd h (by simp)
    | some s =>
      simp only [Option.some.injEq] at h
      exact h ▸ processItem_ok_some hit

/-! ## Facts about the handler and the sort -/

theorem rank_ok {w : World} {sc : String} {tf : Feat} {imgs : List Item}
    {res : List ScoredImage} (hen : w.encodeText sc = some tf)
    (hp : processImages w tf imgs = .ok res) :
    rank w (.json (some sc) (some imgs)) =
      ⟨200, .results ((sortScores res).take 3)⟩ := by
  simp [rank, hen, hp]

theorem rank_err {w : World} {sc : String} {tf : Feat} {imgs : List Item}
    {e : String} (hen : w.encodeText sc = some tf)
    (hp : processImages w tf imgs = .error e) :
    rank w (.json (some sc) (some imgs)) = ⟨400, .err e⟩ := by
  simp [rank, hen, hp]

theorem rank_ok_inv {w : World} {sc : String} {tf : Feat} {imgs : List Item}
    {rs : List ScoredImage} (hen : w.encodeText sc = some tf)
    (hr : rank w (.json (some sc) (some imgs)) = ⟨200, .results rs⟩) :
    ∃ res, processImages w tf imgs = .ok res ∧ rs = (sortScores res).take 3 := by
  cases hp : processImages w tf imgs with
  | error e =>
    rw [rank_err hen hp] at hr
    have h4 := congrArg Response.status hr
    simp at h4
  | ok res =>
    refine ⟨res, rfl, ?_⟩
    rw [rank_ok hen hp] at hr
    have hb := congrArg Response.body hr
    simp only [RBody.results.injEq] at hb
    exact hb.symm

theorem scoreLE_trans :
    ∀ a b c : ScoredImage, scoreLE a b → scoreLE b c → scoreLE a c := by
  intro a b c hab hbc
  simp only [scoreLE, decide_eq_true_eq] at *
  exact le_trans hbc hab

theorem scoreLE_total : ∀ a b : ScoredImage, scoreLE a b || scoreLE b a := by
  intro a b
  simp only [scoreLE]
  rcases le_total a.score b.score with h | h <;> simp [h]

theorem sortScores_perm (l : List ScoredImage) : List.Perm (sortScores l) l :=
  List.mergeSort_perm l scoreLE

theorem sortScores_pairwise (l : List ScoredImage) :
    (sortScores l).Pairwise fun a b => b.score ≤ a.score := by
  have h := List.sorted_mergeSort scoreLE_trans scoreLE_total l
  exact h.imp fun hab => by simpa [scoreLE] using hab

theorem sortScores_filter_eq (l : List ScoredImage) (s : ℚ) :
    (sortScores l).filter (fun e => decide (e.score = s)) =
      l.filter (fun e => decide (e.score = s)) := by
  have hperm :
      List.Perm ((sortScores l).filter (fun e => decide (e.score = s)))
        (l.filter (fun e => decide (e.score = s))) :=
    (sortScores_perm l).filter _
  have hpair : (l.filter (fun e => decide (e.score = s))).Pairwise
      fun a b => scoreLE a b = true := by
    apply List.pairwise_of_forall_mem_list
    intro a ha b hb
    have ha2 := List.of_mem_filter ha
    have hb2 := List.of_mem_filter hb
    simp only [decide_eq_true_eq] at ha2 hb2
    simp [scoreLE, ha2, hb2]
  have hsub : List.Sublist (l.filter (fun e => decide (e.score = s)))
      (sortScores l) :=
    List.sublist_mergeSort scoreLE_trans scoreLE_total hpair
      (List.filter_sublist l)
  have hsub2 : List.Sublist (l.filter (fun e => decide (e.score = s)))
      ((sortScores l).filter (fun e => decide (e.score = s))) := by
    have h5 := hsub.filter (fun e => decide (e.score = s))
    have h6 : (l.filter (fun e => decide (e.score = s))).filter
        (fun e => decide (e.score = s)) = l.filter (fun e => decide (e.score = s)) := by
      apply List.filter_eq_self.mpr
      intro a ha
      have h7 := List.of_mem_filter ha
      exact h7
    rwa [h6] at h5
  exact (hsub2.eq_of_length hperm.length_eq.symm).symm

theorem mem_take_sort {res rs : List ScoredImage} {e : ScoredImage}
    (hrs : rs = (sortScores res).take 3) (he : e ∈ rs) : e ∈ res := by
  rw [hrs] at he
  have h9 := (List.take_sublist 3 (sortScores res)).subset he
  simp only [sortScores] at h9
  exact List.mem_mergeSort.mp h9

/-! ## Concrete worlds used to instantiate the theorems -/

/-- A world with two fetchable thumb urls `t1` and `t2` whose images embed
successfully, every other url unreachable. -/
def exW : World where
  http := fun u => if u = "t1" then some [7] else if u = "t2" then some [8] else none
  decode := fun bs => if bs = [7] then some 1 else if bs = [8] then some 2 else none
  encodeText := fun _ => some 0
  procEmbed := fun i => if i = 1 then some 5 else if i = 2 then some 6 else none
  cosSim := fun f _ => if f = 5 then 1/2 else if f = 6 then 1/2 else 0

/-- Two well-formed candidates for `exW`. -/
def exItems : List Item := [.obj (some "a") (some "t1"), .obj (some "b") (some "t2")]

/-- The entry produced from the first candidate of `exItems`. -/
def exEntry1 : ScoredImage := ⟨"a", round4 (1/2)⟩

/-- The entry produced from the second candidate of `exItems`. -/
def exEntry2 : ScoredImage := ⟨"b", round4 (1/2)⟩

theorem exW_processImages :
    processImages exW 0 exItems = .ok [exEntry1, exEntry2] := rfl

theorem exW_sorted : sortScores [exEntry1, exEntry2] = [exEntry1, exEntry2] := by
  apply List.mergeSort_of_sorted
  simp [scoreLE, exEntry1, exEntry2]

theorem exW_rank :
    rank exW (.json (some "s") (some exItems)) =
      ⟨200, .results [exEntry1, exEntry2]⟩ := by
  rw [rank_ok rfl exW_processImages, exW_sorted]
  rfl

/-- A world whose HTTP layer returns a payload larger than 1MB on every
url and whose decoder accepts any byte list; used to exhibit the handling
of oversized payloads. -/
def cexW : World where
  http := fun _ => some (List.replicate 1000001 0)
  decode := fun _ => some 0
  encodeText := fun _ => none
  procEmbed := fun _ => none
  cosSim := fun _ _ => 0

/-! ## Claim theorems -/

/-- Claim C1: for every request whose images list yields N
successfully-processed candidates (the recorded results list `res`), the
rank handler responds with status 200 and exactly N entries when N is at
most 3, and exactly 3 entries when N exceeds 3. -/
theorem rank_returns_top3_count (w : World) (sc : String) (tf : Feat)
    (imgs : List Item) (res : List ScoredImage)
    (hen : w.encodeText sc = some tf)
    (hp : processImages w tf imgs = .ok res) :
    ∃ rs, rank w (.json (some sc) (some imgs)) = ⟨200, .results rs⟩ ∧
      (res.length ≤ 3 → rs.length = res.length) ∧
      (3 < res.length → rs.length = 3) := by
  refine ⟨(sortScores res).take 3, rank_ok hen hp, ?_, ?_⟩ <;>
  · intro h
    simp only [sortScores, List.length_take, List.length_mergeSort]
    omega

theorem rank_returns_top3_count_witness :
    ∃ rs, rank exW (.json (some "s") (some exItems)) = ⟨200, .results rs⟩ ∧
      (([exEntry1, exEntry2] : List ScoredImage).length ≤ 3 →
        rs.length = ([exEntry1, exEntry2] : List ScoredImage).length) ∧
      (3 < ([exEntry1, exEntry2] : List ScoredImage).length → rs.length = 3) :=
  rank_returns_top3_count exW "s" 0 exItems [exEntry1, exEntry2] rfl
    exW_processImages

/-- Claim C2: the recorded results are produced in input-candidate order
(`res = imgs.filterMap (itemEntry w tf)`), the returned list is sorted by
score in descending order, and for every score value the returned entries
carrying that score form a sublist of the recorded results carrying that
score, i.e. equal-score entries keep their original relative input order
(the sort is stable). -/
theorem rank_sorted_descending_stable (w : World) (sc : String) (tf : Feat)
    (imgs : List Item) (res rs : List ScoredImage)
    (hen : w.encodeText sc = some tf)
    (hp : processImages w tf imgs = .ok res)
    (hr : rank w (.json (some sc) (some imgs)) = ⟨200, .results rs⟩) :
    res = imgs.filterMap (itemEntry w tf) ∧
    rs.Pairwise (fun a b => b.score ≤ a.score) ∧
    ∀ s : ℚ, List.Sublist (rs.filter (fun e => decide (e.score = s)))
      (res.filter (fun e => decide (e.score = s))) := by
  obtain ⟨res2, hp2, hrs⟩ := rank_ok_inv hen hr
  rw [hp] at hp2
  have hres : res2 = res := (Except.ok.inj hp2).symm
  rw [hres] at hrs
  refine ⟨processImages_ok_eq hp, ?_, ?_⟩
  · rw [hrs]
    exact (sortScores_pairwise res).sublist (List.take_sublist 3 _)
  · intro s
    rw [hrs]
    have h8 := (List.take_sublist 3 (sortScores res)).filter
      (fun e => decide (e.score = s))
    rw [sortScores_filter_eq] at h8
    exact h8

theorem rank_sorted_descending_stable_witness :
    ([exEntry1, exEntry2] : List ScoredImage) =
      exItems.filterMap (itemEntry exW 0) ∧
    ([exEntry1, exEntry2] : List ScoredImage).Pairwise
      (fun a b => b.score ≤ a.score) ∧
    ∀ s : ℚ, List.Sublist
      (([exEntry1, exEntry2] : List ScoredImage).filter
        (fun e => decide (e.score = s)))
      (([exEntry1, exEntry2] : List ScoredImage).filter
        (fun e => decide (e.score = s))) :=
  rank_sorted_descending_stable exW "s" 0 exItems [exEntry1, exEntry2]
    [exEntry1, exEntry2] rfl exW_processImages exW_rank

/-- Claim C3: a per-candidate failure (`processItem` yields `.ok none`:
download timeout, oversized-then-undecodable payload, decode failure,
preprocessing failure or embedding failure) only removes that candidate:
the response equals the response to the same request without the failing
candidate. In particular, when every candidate fails, the response is the
empty list with status 200. -/
theorem rank_per_candidate_failure (w : World) (sc : String) (tf : Feat)
    (bad : Item) (l1 l2 : List Item)
    (hen : w.encodeText sc = some tf)
    (hbad : processItem w tf bad = .ok none) :
    rank w (.json (some sc) (some (l1 ++ bad :: l2))) =
      rank w (.json (some sc) (some (l1 ++ l2))) ∧
    ∀ imgs, (∀ it ∈ imgs, processItem w tf it = .ok none) →
      rank w (.json (some sc) (some imgs)) = ⟨200, .results []⟩ := by
  constructor
  · simp [rank, hen, processImages_skip hbad l1 l2]
  · intro imgs hall
    rw [rank_ok hen (processImages_all_none hall)]
    simp [sortScores]

theorem rank_per_candidate_failure_witness :
    (rank exW (.json (some "s")
        (some ([] ++ Item.obj (some "c") (some "nope") :: exItems))) =
      rank exW (.json (some "s") (some ([] ++ exItems)))) ∧
    ∀ imgs, (∀ it ∈ imgs, processItem exW 0 it = .ok none) →
      rank exW (.json (some "s") (some imgs)) = ⟨200, .results []⟩ :=
  rank_per_candidate_failure exW "s" 0 (Item.obj (some "c") (some "nope"))
    [] exItems rfl rfl

/-- Claim C4: a malformed body, a missing `scene` field or a missing
`images` field each produce a 400 response whose JSON body is an error
object with a non-empty message, and the response carries no results. -/
theorem rank_request_validation (w : World) :
    (∃ m, rank w .malformed = ⟨400, .err m⟩ ∧ m ≠ "") ∧
    (∀ imgs, ∃ m, rank w (.json none imgs) = ⟨400, .err m⟩ ∧ m ≠ "") ∧
    (∀ sc, ∃ m, rank w (.json (some sc) none) = ⟨400, .err m⟩ ∧ m ≠ "") :=
  ⟨⟨_, rfl, by decide⟩, fun _ => ⟨_, rfl, by decide⟩,
    fun _ => ⟨_, rfl, by decide⟩⟩

/-- Claim C5: when every cosine similarity the model can produce lies in
[-1, 1], every score of a returned entry lies in [-1, 1] and equals the
unrounded similarity of some image features against the scene features,
rounded to 4 decimal digits. -/
theorem rank_scores_bounded_rounded (w : World) (sc : String) (tf : Feat)
    (imgs : List Item) (rs : List ScoredImage)
    (hb : ∀ a b, |w.cosSim a b| ≤ 1)
    (hen : w.encodeText sc = some tf)
    (hr : rank w (.json (some sc) (some imgs)) = ⟨200, .results rs⟩) :
    ∀ e ∈ rs, (-1 ≤ e.score ∧ e.score ≤ 1) ∧
      ∃ f, e.score = round4 (w.cosSim f tf) := by
  obtain ⟨res, hp, hrs⟩ := rank_ok_inv hen hr
  intro e he
  have he2 : e ∈ res := mem_take_sort hrs he
  obtain ⟨it, hit, hie⟩ := mem_ok_results hp he2
  obtain ⟨u, t, img, f, hshape, hdl, hpe, hescore⟩ := itemEntry_some_shape hie
  have hsc : e.score = round4 (w.cosSim f tf) := by rw [hescore]
  refine ⟨?_, f, hsc⟩
  have h11 : |e.score| ≤ 1 := by
    rw [hsc]
    exact abs_round4_le_one (hb f tf)
  exact abs_le.mp h11

theorem rank_scores_bounded_rounded_witness :
    (-1 ≤ exEntry1.score ∧ exEntry1.score ≤ 1) ∧
    ∃ f, exEntry1.score = round4 (exW.cosSim f 0) :=
  rank_scores_bounded_rounded exW "s" 0 exItems [exEntry1, exEntry2]
    (by
      intro a b
      simp only [exW]
      split_ifs <;> rw [abs_le] <;> constructor <;> norm_num)
    rfl exW_rank exEntry1 (List.mem_cons_self exEntry1 [exEntry2])

/-- Claim C6 counterexample: it is not true that an oversized payload
(more than 1,000,000 bytes) is treated as a fetch failure. In `cexW` the
HTTP layer returns a 1,000,001-byte payload and the decoder accepts the
truncated 1MB prefix, so `safe_download` returns an image instead of the
`none` the claim requires. -/
theorem safe_download_oversized_cex :
    ¬ (∀ (w : World) (url : String) (bs : List Nat),
        w.http url = some bs → 1000000 < bs.length →
        safe_download w url = none) := by
  intro h
  have h1 := h cexW "u" (List.replicate 1000001 0) rfl
    (by rw [List.length_replicate]; omega)
  have h2 : safe_download cexW "u" = some 0 := rfl
  rw [h1] at h2
  exact absurd h2 (by simp)

/-- Claim C6 (amended): given a URL, `safe_download` returns `none` when
the HTTP fetch raises (network error, timeout, HTTP error status), and
otherwise reads at most the first 1,000,000 bytes of the payload and
returns the result of decoding that truncated prefix (`none` exactly when
decoding fails); an oversized payload is not rejected as such but
truncated to its first 1MB before decoding. The function always returns
an explicit optional value rather than propagating an exception. -/
theorem safe_download_truncates (w : World) (url : String) :
    (w.http url = none → safe_download w url = none) ∧
    (∀ bs, w.http url = some bs →
      safe_download w url = w.decode (bs.take 1000000) ∧
      (bs.take 1000000).length ≤ 1000000) := by
  constructor
  · intro h
    simp [safe_download, h]
  · intro bs h
    refine ⟨by simp [safe_download, h], ?_⟩
    rw [List.length_take]
    exact min_le_left _ _

theorem safe_download_truncates_witness :
    safe_download cexW "u" =
      cexW.decode ((List.replicate 1000001 0).take 1000000) ∧
    ((List.replicate 1000001 0).take 1000000).length ≤ 1000000 :=
  (safe_download_truncates cexW "u").2 (List.replicate 1000001 0) rfl

/-- Claim C7: a valid request whose images list is empty produces the
empty result list with status 200. -/
theorem rank_empty_images (w : World) (sc : String) (tf : Feat)
    (hen : w.encodeText sc = some tf) :
    rank w (.json (some sc) (some [])) = ⟨200, .results []⟩ := by
  rw [rank_ok hen (show processImages w tf [] = .ok [] from rfl)]
  simp [sortScores]

theorem rank_empty_images_witness :
    rank exW (.json (some "s") (some [])) = ⟨200, .results []⟩ :=
  rank_empty_images exW "s" 0 rfl

/-- Claim C8: a recorded entry takes its `url` field from the `url` key
of the candidate it was produced from (never from `thumb`); the `thumb`
key influences the outcome only through the fetched image, so two
candidates whose thumbs fetch identically are processed identically; and
every returned entry has some input candidate whose `url` key equals the
entry url. -/
theorem rank_url_from_display (w : World) (tf : Feat) :
    (∀ u t e, processItem w tf (.obj (some u) (some t)) = .ok (some e) →
      e.url = u) ∧
    (∀ url t t2, safe_download w t = safe_download w t2 →
      processItem w tf (.obj url (some t)) =
        processItem w tf (.obj url (some t2))) ∧
    (∀ sc imgs rs, w.encodeText sc = some tf →
      rank w (.json (some sc) (some imgs)) = ⟨200, .results rs⟩ →
      ∀ e ∈ rs, ∃ t, Item.obj (some e.url) (some t) ∈ imgs) := by
  refine ⟨?_, ?_, ?_⟩
  · intro u t e h
    obtain ⟨u2, t2, img, f, hshape, _, _, hescore⟩ := processItem_ok_some h
    obtain ⟨h1, h2⟩ := Item.obj.inj hshape
    rw [hescore]
    exact (Option.some.inj h1).symm
  · intro url t t2 hdl
    simp only [processItem, hdl]
  · intro sc imgs rs hen hr e he
    obtain ⟨res, hp, hrs⟩ := rank_ok_inv hen hr
    have he2 : e ∈ res := mem_take_sort hrs he
    obtain ⟨it, hit, hie⟩ := mem_ok_results hp he2
    obtain ⟨u, t, img, f, hshape, _, _, hescore⟩ := itemEntry_some_shape hie
    refine ⟨t, ?_⟩
    rw [hescore]
    rw [← hshape]
    exact hit

theorem rank_url_from_display_witness :
    ((exEntry1.url = "a")) ∧
    (processItem exW 0 (.obj (some "a") (some "t1")) =
      processItem exW 0 (.obj (some "a") (some "t1"))) ∧
    ∀ e ∈ ([exEntry1, exEntry2] : List ScoredImage),
      ∃ t, Item.obj (some e.url) (some t) ∈ exItems := by
  obtain ⟨h1, h2, h3⟩ := rank_url_from_display exW 0
  refine ⟨h1 "a" "t1" exEntry1 rfl, h2 (some "a") "t1" "t1" rfl, ?_⟩
  exact h3 "s" exItems [exEntry1, exEntry2] rfl exW_rank

/-- Claim C9: the handler is deterministic: two runs of `rank` on the
identical request body against the same world (same model outcomes, same
fetch outcomes) produce the same response. -/
theorem rank_deterministic (w : World) (b : Body) (r1 r2 : Response)
    (h1 : r1 = rank w b) (h2 : r2 = rank w b) : r1 = r2 :=
  h1.trans h2.symm

theorem rank_deterministic_witness :
    (⟨400, .err "BadRequest: failed to decode JSON object"⟩ : Response) =
      ⟨400, .err "BadRequest: failed to decode JSON object"⟩ :=
  rank_deterministic exW .malformed _ _ rfl rfl

/-- Claim C10: a candidate object lacking the `thumb` key, or a
non-object candidate, aborts the whole request with a 400 error response
(discarding every previously recorded result), regardless of its position
in the list; whereas a candidate lacking only the `url` key, whose thumb
downloads and embeds successfully, is silently skipped exactly like a
per-candidate failure. -/
theorem rank_item_key_errors (w : World) (sc : String) :
    (∀ u l1 l2, ∃ m,
      rank w (.json (some sc) (some (l1 ++ Item.obj u none :: l2))) =
        ⟨400, .err m⟩ ∧ m ≠ "") ∧
    (∀ l1 l2, ∃ m,
      rank w (.json (some sc) (some (l1 ++ Item.nonObj :: l2))) =
        ⟨400, .err m⟩ ∧ m ≠ "") ∧
    (∀ tf t img f l1 l2, w.encodeText sc = some tf →
      safe_download w t = some img → w.procEmbed img = some f →
      rank w (.json (some sc) (some (l1 ++ Item.obj none (some t) :: l2))) =
        rank w (.json (some sc) (some (l1 ++ l2)))) := by
  refine ⟨?_, ?_, ?_⟩
  · intro u l1 l2
    cases hen : w.encodeText sc with
    | none =>
      exact ⟨"RuntimeError: text encoding failed", by simp [rank, hen],
        by decide⟩
    | some tf =>
      obtain ⟨m, hm⟩ := processImages_abort
        (show processItem w tf (.obj u none) = .error "KeyError: thumb"
          from by simp [processItem]) l1 l2
      exact ⟨m, rank_err hen hm, processImages_error_ne hm⟩
  · intro l1 l2
    cases hen : w.encodeText sc with
    | none =>
      exact ⟨"RuntimeError: text encoding failed", by simp [rank, hen],
        by decide⟩
    | some tf =>
      obtain ⟨m, hm⟩ := processImages_abort
        (show processItem w tf .nonObj =
            .error "TypeError: candidate is not a JSON object"
          from by simp [processItem]) l1 l2
      exact ⟨m, rank_err hen hm, processImages_error_ne hm⟩
  · intro tf t img f l1 l2 hen hdl hpe
    have hskip : processItem w tf (.obj none (some t)) = .ok none := by
      simp [processItem, hdl, hpe]
    simp [rank, hen, processImages_skip hskip l1 l2]

theorem rank_item_key_errors_witness :
    (∃ m, rank exW (.json (some "s")
        (some ([] ++ Item.obj (some "x") none :: []))) =
      ⟨400, .err m⟩ ∧ m ≠ "") ∧
    (∃ m, rank exW (.json (some "s")
        (some ([] ++ Item.nonObj :: []))) = ⟨400, .err m⟩ ∧ m ≠ "") ∧
    (rank exW (.json (some "s")
        (some ([] ++ Item.obj none (some "t1") :: exItems))) =
      rank exW (.json (some "s") (some ([] ++ exItems)))) := by
  obtain ⟨h1, h2, h3⟩ := rank_item_key_errors exW "s"
  exact ⟨h1 (some "x") [] [], h2 [] [], h3 0 "t1" 1 5 [] exItems rfl rfl rfl⟩

end ClipRanker
